import Mathlib

/-!
Verification development for the joystick-driven flight-simulator repository.
The core of the repository (channel discovery, frame decoding, latest-wins
telemetry ingestion, and the dynamics integrator) is shallowly embedded here:
strings are `List Char`, machine floats are modelled by `ℚ` with the
transcendental library functions (`math.sin`, `math.cos`, `math.sqrt`,
`math.radians`) passed in as explicit function parameters, and fallible
operations return `Option`.
-/

namespace Joystick

/-- ASCII digit test, modelling Python `str.isdigit` / regex `\d` on the
ASCII inputs the device emits. -/
def isDigitC (c : Char) : Bool := c.isDigit

/-- Regex word character `\w` (ASCII model): letters, digits, underscore. -/
def isWordC (c : Char) : Bool := c.isAlpha || c.isDigit || c = '_'

/-- Regex whitespace `\s` (ASCII model). -/
def isSpaceC (c : Char) : Bool :=
  c = ' ' || c = '\t' || c = '\n' || c = '\r' || c = '\x0b' || c = '\x0c'

/-- Numeric value of a digit string, as computed by Python `int` on a
string of ASCII digits. -/
def natOfDigits (l : List Char) : Nat :=
  l.foldl (fun a c => a * 10 + (c.toNat - 48)) 0

/-- Match `Y[:=]\s*(\d+)` exactly at the head of the input, returning the
value of the captured digits. -/
def matchYFrom : List Char → Option Nat
  | 'Y' :: c :: rest =>
    if c = ':' || c = '=' then
      let rest2 := rest.dropWhile isSpaceC
      let ds := rest2.takeWhile isDigitC
      if ds.isEmpty then none else some (natOfDigits ds)
    else none
  | _ => none

/-- Greedy backtracking for the `[^\d]*` gap of the regex: try consuming
`n, n-1, …, 0` non-digit characters (longest first, as the greedy `*`
does) before requiring the `Y` field. -/
def tryYAtDrops (l : List Char) : Nat → Option Nat
  | 0 => matchYFrom l
  | n + 1 =>
    match matchYFrom (l.drop (n + 1)) with
    | some v => some v
    | none => tryYAtDrops l n

/-- Match the full pattern `(?:X[:=]\s*(\d+))[^\d]*(?:Y[:=]\s*(\d+))`
anchored at the head of the input. -/
def matchXYAt : List Char → Option (Nat × Nat)
  | 'X' :: c :: rest =>
    if c = ':' || c = '=' then
      let rest2 := rest.dropWhile isSpaceC
      let ds := rest2.takeWhile isDigitC
      if ds.isEmpty then none
      else
        let rest3 := rest2.drop ds.length
        let nd := rest3.takeWhile (fun d => !isDigitC d)
        match tryYAtDrops rest3 nd.length with
        | some y => some (natOfDigits ds, y)
        | none => none
    else none
  | _ => none

/-- Python `re.search` for the pattern: try each start position from the left,
returning the first full match. -/
def searchXY : List Char → Option (Nat × Nat)
  | [] => none
  | c :: rest =>
    match matchXYAt (c :: rest) with
    | some v => some v
    | none => searchXY rest

/-- Collect the matches of Python `re.findall` for the pattern `\b\d{2,4}\b`: maximal
digit runs of length 2–4 whose neighbours on both sides are word
boundaries.  `okB` records whether the position before the current run is a
word boundary; `cur` is the digit run read so far. -/
def runsGo : Bool → List Char → List Char → List (List Char)
  | okB, cur, [] =>
    if !cur.isEmpty && okB && decide (2 ≤ cur.length) && decide (cur.length ≤ 4) then
      [cur]
    else []
  | okB, cur, c :: rest =>
    if isDigitC c then runsGo okB (cur ++ [c]) rest
    else
      (if !cur.isEmpty && okB && !isWordC c && decide (2 ≤ cur.length)
          && decide (cur.length ≤ 4) then [cur] else [])
        ++ runsGo (!isWordC c) [] rest

/-- Fallback of `parse_xy`: all word-boundary-delimited 2–4 digit runs, in
left-to-right order. -/
def fallbackNums (l : List Char) : List Nat :=
  (runsGo true [] l).map natOfDigits

/-- game1.py `parse_xy`: search the line with the regex
`(?:X[:=]\s*(\d+))[^\d]*(?:Y[:=]\s*(\d+))`; if it fails, fall back to the
first two word-boundary-delimited runs of 2–4 digits; `(None, None)` (here
`none`) when both fail. -/
def parse_xy (l : List Char) : Option (Nat × Nat) :=
  match searchXY l with
  | some v => some v
  | none =>
    match fallbackNums l with
    | a :: b :: _ => some (a, b)
    | _ => none

/-- Spec input `"X:448,Y:461"`. -/
def lineComma : List Char := "X:448,Y:461".data

/-- Spec input `"X: 448 | Y: 461"`. -/
def linePipe : List Char := "X: 448 | Y: 461".data

/-- Spec input `"08:59:30.001 -> X:448,Y:461"`. -/
def lineTimestamp : List Char := "08:59:30.001 -> X:448,Y:461".data

/-- Spec input `"noise"`. -/
def lineNoise : List Char := "noise".data

/-- Spec input `""`. -/
def lineEmptyStr : List Char := "".data

/-- C2: the frame decoder, applied to the five concrete spec inputs,
returns exactly the specified results. -/
theorem decoder_concrete_values :
    parse_xy lineComma = some (448, 461) ∧
    parse_xy linePipe = some (448, 461) ∧
    parse_xy lineTimestamp = some (448, 461) ∧
    parse_xy lineNoise = none ∧
    parse_xy lineEmptyStr = none := by
  decide

/-- Python `str.strip` on an ASCII line: drop whitespace from both ends. -/
def stripC (l : List Char) : List Char :=
  ((l.dropWhile isSpaceC).reverse.dropWhile isSpaceC).reverse

/-- Substring containment, modelling the Python membership test of `pat` in `s`. -/
def hasSub (s pat : List Char) : Bool :=
  match s with
  | [] => pat.isEmpty
  | _ :: rest => pat.isPrefixOf s || hasSub rest pat

/-- Split a line at commas, modelling Python `line.split(',')`; `cur` is
the field accumulated so far. -/
def splitCommaGo (cur : List Char) : List Char → List (List Char)
  | [] => [cur]
  | c :: rest =>
    if c = ',' then cur :: splitCommaGo [] rest
    else splitCommaGo (cur ++ [c]) rest

/-- Python `line.split(',')`. -/
def splitComma (l : List Char) : List (List Char) :=
  splitCommaGo [] l

/-- claude.py `parse_sensor_data`: split at commas; take the digits of the
first two fields; a field with no digits (where Python `int` of the empty string raises) collapses to
`none`; otherwise normalize both axes by `(raw - 512) / 512.0`. -/
def parse_sensor_data (l : List Char) : Option (ℚ × ℚ) :=
  match splitComma l with
  | p0 :: p1 :: _ =>
    let xds := p0.filter isDigitC
    let yds := p1.filter isDigitC
    if xds.isEmpty || yds.isEmpty then none
    else
      some (((natOfDigits xds : ℚ) - 512) / 512, ((natOfDigits yds : ℚ) - 512) / 512)
  | _ => none

/-- C8: the frame decoders are total on arbitrary string input: decoding
always terminates with an `Option` value — `none` on every malformed or
unparseable input, never an error and never a default numeric value.
(Totality of the embedded functions is certified by the termination
checker; the statement records that the only outcomes are
`none` or a decoded pair.) -/
theorem decoder_total (l : List Char) :
    (parse_xy l = none ∨ ∃ x y, parse_xy l = some (x, y)) ∧
    (parse_sensor_data l = none ∨ ∃ x y, parse_sensor_data l = some (x, y)) := by
  constructor
  · cases h : parse_xy l with
    | none => exact Or.inl rfl
    | some v => exact Or.inr ⟨v.1, v.2, by simp [h]⟩
  · cases h : parse_sensor_data l with
    | none => exact Or.inl rfl
    | some v => exact Or.inr ⟨v.1, v.2, by simp [h]⟩

/-- C8 witness instance for the universally quantified statement. -/
theorem decoder_total_witness :
    parse_xy lineNoise = none ∨ ∃ x y, parse_xy lineNoise = some (x, y) :=
  (decoder_total lineNoise).1

/-! ## Telemetry ingestion (game1.py `_update_game_state`, serial branch)

Per consumer poll, all buffered bytes are drained, split into lines, and
the lines are scanned from the most recent backwards; the first line that
decodes updates the exposed reading, and the loop breaks. -/

/-- First successfully decoded frame in a list of lines. -/
def firstParsed : List (List Char) → Option (Nat × Nat)
  | [] => none
  | l :: ls =>
    match parse_xy l with
    | some v => some v
    | none => firstParsed ls

/-- One consumer poll of game1.py: scan the arrived lines from the last
backwards (`for line in reversed(lines)`), keep the first decodable one,
otherwise keep the current reading. -/
def ingestLatest (lines : List (List Char)) (cur : Nat × Nat) : Nat × Nat :=
  match firstParsed lines.reverse with
  | some v => v
  | none => cur

/-- If every line of a list fails to decode, scanning skips the whole
list. -/
theorem firstParsed_append_of_none (xs ys : List (List Char))
    (h : ∀ l ∈ xs, parse_xy l = none) :
    firstParsed (xs ++ ys) = firstParsed ys := by
  induction xs with
  | nil => rfl
  | cons a xs ih =>
    have ha : parse_xy a = none := h a (List.mem_cons_self a xs)
    simp only [List.cons_append, firstParsed, ha]
    exact ih fun l hl => h l (List.mem_cons_of_mem a hl)

/-- C1: latest-wins ingestion.  For any sequence of complete lines arriving
between two consumer polls, if a line decodes and every later line fails to
decode, then the reading exposed after the poll is exactly the decoded
value of that most recent decodable line — whatever arrived earlier (and
whatever the previous reading was) is never observable. -/
theorem telemetry_latest_wins (pre : List (List Char)) (line : List Char)
    (post : List (List Char)) (cur : Nat × Nat) (v : Nat × Nat)
    (hline : parse_xy line = some v)
    (hpost : ∀ l ∈ post, parse_xy l = none) :
    ingestLatest (pre ++ line :: post) cur = v := by
  have hrev : (pre ++ line :: post).reverse = post.reverse ++ line :: pre.reverse := by
    simp
  have hpost' : ∀ l ∈ post.reverse, parse_xy l = none := by
    intro l hl
    exact hpost l (List.mem_reverse.mp hl)
  unfold ingestLatest
  rw [hrev, firstParsed_append_of_none post.reverse (line :: pre.reverse) hpost']
  simp [firstParsed, hline]

/-- Frame `F1` of the latest-wins witness run. -/
def lineF1 : List Char := "X:100,Y:200".data

/-- C1 witness: with frames `F1` then `F2 = "X:448,Y:461"` arriving before
the poll, the consumer sees only the reading of `F2`. -/
theorem telemetry_latest_wins_witness :
    ingestLatest [lineF1, lineComma] (512, 512) = (448, 461) :=
  telemetry_latest_wins [lineF1] lineComma [] (512, 512) (448, 461)
    (by decide) (by simp)

/-! ## Device validation (claude.py `find_working_port`, inner loop)

The loop reads one line per attempt while `time.time() - start < 2.0 and
attempts < 60`, counts lines that carry both axis markers and decode
successfully, and returns ACCEPT the moment the count reaches 2.  A
channel is modelled as the list of `(elapsed time at loop top, read
result)` pairs its reads would produce; an exhausted list is a channel
that never produces another in-budget read. -/

/-- Marker `"X:"` checked before attempting a decode. -/
def markerX : List Char := "X:".data

/-- Marker `"Y:"` checked before attempting a decode. -/
def markerY : List Char := "Y:".data

/-- One validation attempt: a read result counts as a valid decode when it
is non-empty after stripping, contains both `"X:"` and `"Y:"`, and
`parse_sensor_data` succeeds.  `none` models an empty read (timeout) or a
read error — both merely consume the attempt. -/
def validAttempt : Option (List Char) → Bool
  | none => false
  | some raw =>
    let s := stripC raw
    !s.isEmpty && hasSub s markerX && hasSub s markerY && (parse_sensor_data s).isSome

/-- The validation loop.  `attempts` is the number of completed reads,
`valid` the cumulative count of successful decodes; the loop stops with
REJECT at the first iteration whose elapsed time has reached 2 seconds or
once 60 attempts are used, and returns ACCEPT the moment the second valid
decode is seen. -/
def validateGo : List (ℚ × Option (List Char)) → Nat → Nat → Bool
  | [], _, _ => false
  | (t, r) :: rest, attempts, valid =>
    if t < 2 ∧ attempts < 60 then
      if validAttempt r then
        if 2 ≤ valid + 1 then true
        else validateGo rest (attempts + 1) (valid + 1)
      else validateGo rest (attempts + 1) valid
    else false

/-- Validate one candidate channel (fresh counters). -/
def validate (reads : List (ℚ × Option (List Char))) : Bool :=
  validateGo reads 0 0

/-- The reads the loop can actually process: those strictly before the
2-second mark, capped at the 60-attempt budget. -/
def inBudget (reads : List (ℚ × Option (List Char))) : List (ℚ × Option (List Char)) :=
  (reads.takeWhile fun p => decide (p.1 < 2)).take 60

/-- Number of successful decodes in a list of reads. -/
def countValid (reads : List (ℚ × Option (List Char))) : Nat :=
  reads.countP fun p => validAttempt p.2

/-- Loop characterization: with `valid < 2` successes so far and `attempts`
attempts used, the loop accepts iff the remaining in-budget reads bring the
cumulative count to 2. -/
theorem validateGo_iff (reads : List (ℚ × Option (List Char))) (a v : Nat)
    (hv : v < 2) :
    validateGo reads a v = true ↔
      2 ≤ v + countValid ((reads.takeWhile fun p => decide (p.1 < 2)).take (60 - a)) := by
  induction reads generalizing a v with
  | nil =>
    simp [validateGo, countValid]
    omega
  | cons p rest ih =>
    obtain ⟨t, r⟩ := p
    by_cases ht : t < 2
    · by_cases ha : a < 60
      · have h60 : 60 - a = (60 - (a + 1)) + 1 := by omega
        by_cases hr : validAttempt r
        · by_cases hacc : 2 ≤ v + 1
          · simp [validateGo, ht, ha, hr, hacc, h60, countValid, List.countP_cons]
            omega
          · have hv1 : v + 1 < 2 := by omega
            simp [validateGo, ht, ha, hr, hacc, h60, countValid, List.countP_cons,
              ih (a + 1) (v + 1) hv1]
            omega
        · simp [validateGo, ht, ha, hr, h60, countValid, List.countP_cons,
            ih (a + 1) v hv]
      · have h60 : 60 - a = 0 := by omega
        simp [validateGo, ht, ha, h60, countValid]
        omega
    · simp [validateGo, ht, countValid]
      omega

/-- Acceptance is decided as soon as it happens: whatever the channel would
deliver after the accepting read cannot change the verdict. -/
theorem validateGo_mono (l1 l2 : List (ℚ × Option (List Char))) (a v : Nat)
    (h : validateGo l1 a v = true) : validateGo (l1 ++ l2) a v = true := by
  induction l1 generalizing a v with
  | nil => simp [validateGo] at h
  | cons p rest ih =>
    obtain ⟨t, r⟩ := p
    simp only [validateGo, List.cons_append] at h ⊢
    by_cases hta : t < 2 ∧ a < 60
    · simp only [hta, if_true] at h ⊢
      by_cases hr : validAttempt r
      · simp only [hr, if_true] at h ⊢
        by_cases hacc : 2 ≤ v + 1
        · simp [hacc]
        · simp only [hacc, if_false] at h ⊢
          exact ih _ _ h
      · simp only [hr, if_false] at h ⊢
        exact ih _ _ h
    · simp [hta] at h

/-- C3: the validator accepts a channel exactly when at least 2 cumulative
successful decodes occur among the reads available inside the wall-clock
budget (2 seconds) and attempt cap (60 reads) — so every channel yielding
0 or 1 valid decodes is rejected — and it accepts immediately: once a
channel is accepted, any further reads the channel might have delivered
cannot change the verdict (it does not wait out the rest of the budget). -/
theorem validator_accept_iff (reads extra : List (ℚ × Option (List Char))) :
    (validate reads = true ↔ 2 ≤ countValid (inBudget reads)) ∧
    (validate reads = true → validate (reads ++ extra) = true) := by
  constructor
  · have h := validateGo_iff reads 0 0 (by omega)
    simpa [validate, inBudget] using h
  · intro h
    exact validateGo_mono reads extra 0 0 h

/-- A channel emitting two decodable frames at 0 s and 1 s. -/
def readsOk : List (ℚ × Option (List Char)) :=
  [(0, some lineF1), (1, some lineComma)]

/-- Reads beyond the accepting one (out of budget, and empty). -/
def readsTail : List (ℚ × Option (List Char)) :=
  [(3, none)]

/-- C3 witness: a channel that emits two valid frames in budget is
accepted, and remains accepted whatever follows. -/
theorem validator_accept_iff_witness :
    validate (readsOk ++ readsTail) = true :=
  (validator_accept_iff readsOk readsTail).2 (by decide)

/-! ## Port scanning (claude.py `find_working_port`: ordering and probe loop)

Candidates are sorted by `get_com_num` descending (`list.sort` with
`reverse=True`, a stable sort), then stably re-sorted by a two-valued
keyword priority (`port_priority`), and probed in the resulting order;
a candidate that errors on open is skipped. -/

/-- What a candidate channel does when probed: it either fails to open
(permission denied, busy, nonexistent) or opens and delivers reads. -/
inductive PortBehavior where
  | openFailed : PortBehavior
  | opens : List (ℚ × Option (List Char)) → PortBehavior

/-- A candidate channel: device name, free-text description (absent
modelled as empty), and its behavior when probed. -/
structure PortInfo where
  device : List Char
  description : List Char
  behavior : PortBehavior

/-- claude.py `get_com_num`: the integer formed from the digits of the
device name, 0 when there are none (Python `int` of the empty digit string raises and is caught). -/
def comNum (p : PortInfo) : Nat :=
  let ds := p.device.filter isDigitC
  if ds.isEmpty then 0 else natOfDigits ds

/-- ASCII lower-casing, modelling `str.lower` on the device descriptions. -/
def toLowerC (c : Char) : Char :=
  if 'A' ≤ c ∧ c ≤ 'Z' then Char.ofNat (c.toNat + 32) else c

/-- The fixed keyword set `("HC-05", "Bluetooth", "Arduino", "Serial")`,
already lower-cased as `kw.lower()` does. -/
def preferredKeywords : List (List Char) :=
  ["hc-05".data, "bluetooth".data, "arduino".data, "serial".data]

/-- claude.py `port_priority` as a predicate: the lower-cased description
contains one of the fixed keywords. -/
def isPref (p : PortInfo) : Bool :=
  preferredKeywords.any fun kw => hasSub (p.description.map toLowerC) kw

/-- The two-valued sort key of `port_priority`: 0 for keyword matches,
1 otherwise. -/
def prioKey (p : PortInfo) : ℤ :=
  if isPref p then 0 else 1

/-- Descending rank is ascending on the negated `get_com_num` key. -/
def numKey (p : PortInfo) : ℤ :=
  -(comNum p : ℤ)

/-- Stable insertion for a stable key sort (Python `list.sort(key=…)`):
the inserted element goes after every earlier element with a strictly
smaller key and before the first with an equal or larger key, so elements
with equal keys keep their original relative order. -/
def insKey (k : PortInfo → ℤ) (a : PortInfo) : List PortInfo → List PortInfo
  | [] => [a]
  | b :: l => if k b < k a then b :: insKey k a l else a :: b :: l

/-- Stable sort by an integer key, the semantics of the stable Python
`list.sort(key=...)`. -/
def sortKey (k : PortInfo → ℤ) : List PortInfo → List PortInfo
  | [] => []
  | a :: l => insKey k a (sortKey k l)

/-- Stage 1: `ports.sort(key=get_com_num, reverse=True)`. -/
def numSort (l : List PortInfo) : List PortInfo :=
  sortKey numKey l

/-- Stage 2: `ports.sort(key=port_priority)`. -/
def prioSort (l : List PortInfo) : List PortInfo :=
  sortKey prioKey l

/-- The order in which the scanner probes the candidates. -/
def scanOrder (l : List PortInfo) : List PortInfo :=
  prioSort (numSort l)

theorem mem_insKey (k : PortInfo → ℤ) (a x : PortInfo) (l : List PortInfo) :
    x ∈ insKey k a l ↔ x = a ∨ x ∈ l := by
  induction l with
  | nil => simp [insKey]
  | cons b l ih =>
    by_cases h : k b < k a
    · simp only [insKey, if_pos h, List.mem_cons, ih]
      tauto
    · simp [insKey, h]

theorem insKey_pairwise (k : PortInfo → ℤ) (a : PortInfo) (l : List PortInfo)
    (hl : l.Pairwise fun x y => k x ≤ k y) :
    (insKey k a l).Pairwise fun x y => k x ≤ k y := by
  induction l with
  | nil => simp [insKey]
  | cons b l ih =>
    obtain ⟨hb, hl'⟩ := List.pairwise_cons.mp hl
    by_cases h : k b < k a
    · simp only [insKey, if_pos h]
      refine List.pairwise_cons.mpr ⟨?_, ih hl'⟩
      intro x hx
      rcases (mem_insKey k a x l).mp hx with rfl | hxl
      · exact le_of_lt h
      · exact hb x hxl
    · simp only [insKey, if_neg h]
      refine List.pairwise_cons.mpr ⟨?_, hl⟩
      intro x hx
      rcases List.mem_cons.mp hx with rfl | hxl
      · omega
      · exact le_trans (by omega) (hb x hxl)

theorem insKey_perm (k : PortInfo → ℤ) (a : PortInfo) (l : List PortInfo) :
    List.Perm (insKey k a l) (a :: l) := by
  induction l with
  | nil => simp [insKey]
  | cons b l ih =>
    by_cases h : k b < k a
    · simp only [insKey, if_pos h]
      exact (List.Perm.cons b ih).trans (List.Perm.swap a b l)
    · simp [insKey, h]

theorem sortKey_pairwise (k : PortInfo → ℤ) (l : List PortInfo) :
    (sortKey k l).Pairwise fun x y => k x ≤ k y := by
  induction l with
  | nil => simp [sortKey]
  | cons a l ih => exact insKey_pairwise k a _ ih

theorem sortKey_perm (k : PortInfo → ℤ) (l : List PortInfo) :
    List.Perm (sortKey k l) l := by
  induction l with
  | nil => simp [sortKey]
  | cons a l ih =>
    exact (insKey_perm k a (sortKey k l)).trans (List.Perm.cons a ih)

theorem insKey_cons_of (k : PortInfo → ℤ) (a : PortInfo) (m : List PortInfo)
    (h : ∀ x ∈ m, ¬ k x < k a) : insKey k a m = a :: m := by
  cases m with
  | nil => rfl
  | cons b m => simp [insKey, h b (List.mem_cons_self b m)]

theorem insKey_append_of (k : PortInfo → ℤ) (a : PortInfo)
    (xs ys : List PortInfo) (h : ∀ x ∈ xs, k x < k a) :
    insKey k a (xs ++ ys) = xs ++ insKey k a ys := by
  induction xs with
  | nil => rfl
  | cons b xs ih =>
    have hrest := ih fun x hx => h x (List.mem_cons_of_mem b hx)
    simp only [List.cons_append, insKey, if_pos (h b (List.mem_cons_self b xs))]
    exact congrArg (List.cons b) hrest

theorem prioKey_nonneg (p : PortInfo) : 0 ≤ prioKey p := by
  by_cases h : isPref p <;> simp [prioKey, h]

/-- A stable sort on the two-valued keyword priority is exactly the stable
partition: keyword matches first, in order, then the rest, in order. -/
theorem prioSort_eq_filter (m : List PortInfo) :
    prioSort m = m.filter isPref ++ m.filter (fun p => !isPref p) := by
  induction m with
  | nil => rfl
  | cons a m ih =>
    show insKey prioKey a (prioSort m) = _
    rw [ih]
    by_cases ha : isPref a
    · have hka : prioKey a = 0 := by simp [prioKey, ha]
      rw [insKey_cons_of prioKey a _ (fun x _ => by have := prioKey_nonneg x; omega)]
      simp [List.filter_cons, ha]
    · have hka : prioKey a = 1 := by simp [prioKey, ha]
      have h1 : insKey prioKey a
          (m.filter isPref ++ m.filter (fun p => !isPref p)) =
          m.filter isPref ++ insKey prioKey a (m.filter (fun p => !isPref p)) := by
        refine insKey_append_of prioKey a _ _ fun x hx => ?_
        have hxp : isPref x = true := (List.mem_filter.mp hx).2
        have hx0 : prioKey x = 0 := by simp [prioKey, hxp]
        omega
      have h2 : insKey prioKey a (m.filter (fun p => !isPref p)) =
          a :: m.filter (fun p => !isPref p) := by
        refine insKey_cons_of prioKey a _ fun x hx => ?_
        have hxp : (!isPref x) = true := (List.mem_filter.mp hx).2
        have hxp' : isPref x = false := by simpa using hxp
        have hx1 : prioKey x = 1 := by simp [prioKey, hxp']
        omega
      rw [h1, h2]
      simp [List.filter_cons, ha]

/-- C5: the scanner probes candidates in exactly the order given by:
a sort on `rank_key` descending (`comNum`: the integer formed from the
digits of the candidate name, 0 when there are none), followed by a stable
reorder that places every candidate whose description case-insensitively
contains one of the fixed keywords ahead of all non-matching candidates,
preserving relative rank order within each tier.  Concretely: the final
order is the keyword tier of the rank-descending order followed by the
non-keyword tier, and the rank-descending stage is a permutation of the
candidates sorted by `comNum` descending. -/
theorem scanner_probe_order (l : List PortInfo) :
    scanOrder l =
        (numSort l).filter isPref ++ (numSort l).filter (fun p => !isPref p) ∧
    (numSort l).Pairwise (fun a b => comNum b ≤ comNum a) ∧
    List.Perm (numSort l) l := by
  refine ⟨prioSort_eq_filter (numSort l), ?_, sortKey_perm numKey l⟩
  refine (sortKey_pairwise numKey l).imp fun hxy => ?_
  unfold numKey at hxy
  omega

/-- Whether a candidate opens at all. -/
def openOk (p : PortInfo) : Bool :=
  match p.behavior with
  | .openFailed => false
  | .opens _ => true

/-- The probe loop of `find_working_port`: walk the ordered candidates;
a candidate that fails to open is skipped (`except: continue`); an opened
candidate is validated and returned on ACCEPT, closed and skipped on
REJECT; `None` when every candidate is exhausted. -/
def tryPorts : List PortInfo → Option PortInfo
  | [] => none
  | p :: rest =>
    match p.behavior with
    | .openFailed => tryPorts rest
    | .opens reads => if validate reads then some p else tryPorts rest

/-- The probe loop never looks at candidates that fail to open. -/
theorem tryPorts_filter (l : List PortInfo) :
    tryPorts l = tryPorts (l.filter openOk) := by
  induction l with
  | nil => rfl
  | cons p l ih =>
    cases hb : p.behavior with
    | openFailed =>
      have : openOk p = false := by simp [openOk, hb]
      simp [tryPorts, hb, List.filter_cons, this, ih]
    | opens reads =>
      have : openOk p = true := by simp [openOk, hb]
      simp [tryPorts, hb, List.filter_cons, this, ih]

/-- Filtering commutes with stable insertion into a sorted list. -/
theorem insKey_filter (k : PortInfo → ℤ) (q : PortInfo → Bool) (a : PortInfo)
    (m : List PortInfo) (hm : m.Pairwise fun x y => k x ≤ k y) :
    (insKey k a m).filter q =
      if q a then insKey k a (m.filter q) else m.filter q := by
  induction m with
  | nil =>
    by_cases hqa : q a <;> simp [insKey, List.filter_cons, hqa]
  | cons b m ih =>
    obtain ⟨hbm, hm'⟩ := List.pairwise_cons.mp hm
    by_cases hba : k b < k a
    · simp only [insKey, if_pos hba]
      by_cases hqa : q a <;> by_cases hqb : q b <;>
        simp [List.filter_cons, hqa, hqb, ih hm', insKey, hba]
    · simp only [insKey, if_neg hba]
      by_cases hqa : q a
      · have hfront : insKey k a ((b :: m).filter q) = a :: (b :: m).filter q := by
          refine insKey_cons_of k a _ fun x hx => ?_
          have hxm : x ∈ b :: m := List.mem_of_mem_filter hx
          rcases List.mem_cons.mp hxm with rfl | hxm'
          · omega
          · have := hbm x hxm'
            omega
        conv_lhs => rw [List.filter_cons]
        rw [if_pos hqa, if_pos hqa, hfront]
      · simp [List.filter_cons, hqa]

/-- Filtering commutes with the stable key sort. -/
theorem sortKey_filter (k : PortInfo → ℤ) (q : PortInfo → Bool)
    (l : List PortInfo) :
    (sortKey k l).filter q = sortKey k (l.filter q) := by
  induction l with
  | nil => rfl
  | cons a l ih =>
    show (insKey k a (sortKey k l)).filter q = _
    rw [insKey_filter k q a (sortKey k l) (sortKey_pairwise k l), ih]
    by_cases hqa : q a <;> simp [List.filter_cons, hqa, sortKey]

/-- C9: open-failure isolation.  If a candidate fails to open, the whole
scan — ordering followed by the probe loop — produces the same result as
if that candidate had been absent from the candidate list; an open failure
is never fatal to the discovery phase. -/
theorem open_failure_isolated (l1 : List PortInfo) (c : PortInfo)
    (l2 : List PortInfo) (hc : c.behavior = PortBehavior.openFailed) :
    tryPorts (scanOrder (l1 ++ c :: l2)) = tryPorts (scanOrder (l1 ++ l2)) := by
  have hcopen : openOk c = false := by simp [openOk, hc]
  have hfilter : ∀ m : List PortInfo,
      (scanOrder m).filter openOk = scanOrder (m.filter openOk) := by
    intro m
    unfold scanOrder prioSort numSort
    rw [sortKey_filter, sortKey_filter]
  have hsame : (l1 ++ c :: l2).filter openOk = (l1 ++ l2).filter openOk := by
    simp [List.filter_append, List.filter_cons, hcopen]
  rw [tryPorts_filter (scanOrder (l1 ++ c :: l2)), hfilter, hsame, ← hfilter,
    ← tryPorts_filter]

/-- A healthy candidate used in the scan witnesses. -/
def portGood : PortInfo :=
  ⟨"COM7".data, "HC-05 Bluetooth".data, PortBehavior.opens readsOk⟩

/-- A candidate whose open fails (permission denied / busy / vanished). -/
def portBroken : PortInfo :=
  ⟨"COM9".data, "Standard Serial".data, PortBehavior.openFailed⟩

/-- A candidate that opens but never emits a frame. -/
def portQuiet : PortInfo :=
  ⟨"COM3".data, "USB Device".data, PortBehavior.opens []⟩

/-- C9 witness: dropping the open-failing candidate from a concrete scan
leaves the scan result unchanged. -/
theorem open_failure_isolated_witness :
    tryPorts (scanOrder [portQuiet, portBroken, portGood]) =
      tryPorts (scanOrder [portQuiet, portGood]) :=
  open_failure_isolated [portQuiet] portBroken [portGood] rfl

/-! ## Dynamics integrator (game1.py `_update_game_state`, physics part)

Machine floats are modelled by exact rationals; the transcendental
library functions are abstract parameters, so every theorem below holds
for all interpretations of them. -/

/-- The library functions `math.sin`, `math.cos`, `math.sqrt` and
`math.radians` used by the integrator, as explicit model parameters. -/
structure TrigOps where
  sin : ℚ → ℚ
  cos : ℚ → ℚ
  sqrt : ℚ → ℚ
  radians : ℚ → ℚ

/-- A trivial interpretation of the transcendental functions, used only to
instantiate witnesses of the universally quantified theorems. -/
def trivOps : TrigOps :=
  ⟨fun _ => 0, fun _ => 0, fun _ => 0, fun _ => 0⟩

/-- The aircraft state published to the presentation layer each tick
(`jet_state` plus the score of `game_state` and the raw held axes). -/
structure JetState where
  x : ℚ
  y : ℚ
  roll : ℚ
  pitch : ℚ
  vx : ℚ
  vy : ℚ
  speed : ℚ
  score : ℚ
  xVal : ℚ
  yVal : ℚ

/-- Initial state of `start_joystick_view`: centered position
(`WINDOW_WIDTH // 2`, `WINDOW_HEIGHT * 2 // 3`), zero attitude and
velocities, axes held at the logical center 512. -/
def initJet : JetState :=
  { x := 512, y := 512, roll := 0, pitch := 0, vx := 0, vy := 0,
    speed := 0, score := 0, xVal := 512, yVal := 512 }

/-- Axis normalization `(value - 512) / 511.5`. -/
def normAxis (v : ℚ) : ℚ := (v - 512) / (1023 / 2)

/-- The deadzone: normalized values with magnitude strictly below 0.1 are
treated as exactly 0. -/
def applyDeadzone (v : ℚ) : ℚ := if |v| < 1 / 10 then 0 else v

/-- Target roll of this tick, `roll * roll_max` of the deadzoned normalized
x-axis. -/
def targetRoll (xv : ℚ) : ℚ := applyDeadzone (normAxis xv) * 45

/-- Target pitch of this tick, `pitch * pitch_max` of the deadzoned,
sign-inverted normalized y-axis. -/
def targetPitch (yv : ℚ) : ℚ := applyDeadzone (-(normAxis yv)) * 30

/-- Python `x % m` on exact arithmetic: `x - m * floor (x / m)`. -/
def qmod (x m : ℚ) : ℚ := x - m * (⌊x / m⌋ : ℚ)

/-- One integrator step — the physics of `_update_game_state` after
ingestion.  `r` is the decoded reading of this tick; when absent, the previous
raw axis values are held. -/
def integratorStep (ops : TrigOps) (dt : ℚ) (r : Option (ℚ × ℚ))
    (s : JetState) : JetState :=
  let xv := match r with | some q => q.1 | none => s.xVal
  let yv := match r with | some q => q.2 | none => s.yVal
  let pitchN := applyDeadzone (-(normAxis yv))
  let roll1 := s.roll * (9 / 10) + targetRoll xv * (1 / 10)
  let pitch1 := s.pitch * (9 / 10) + targetPitch yv * (1 / 10)
  let rollRad := ops.radians roll1
  let pitchRad := ops.radians pitch1
  let baseThrust := max 0 pitchN * 500
  let turnRate := -(ops.sin rollRad) * baseThrust * (2 / 100)
  let forwardSpeed := baseThrust * ops.cos |pitchRad|
  let vx1 := (s.vx * (95 / 100) + turnRate) * (98 / 100)
  let vy1 := (s.vy * (95 / 100) + forwardSpeed * (1 / 10)) * (98 / 100)
  let moveScale := 60 * dt
  let x1 := qmod (s.x + vx1 * moveScale) 1024
  let y1 := max 50 (min (768 - 50) (s.y + vy1 * moveScale))
  let speed1 := ops.sqrt (vx1 * vx1 + vy1 * vy1)
  { x := x1, y := y1, roll := roll1, pitch := pitch1, vx := vx1, vy := vy1,
    speed := speed1, score := s.score + speed1 * dt, xVal := xv, yVal := yv }

/-- Run the integrator over an ordered sequence of
`(dt, reading-or-absent)` inputs, collecting the published state of every
tick. -/
def runIntegrator (ops : TrigOps) (s : JetState) :
    List (ℚ × Option (ℚ × ℚ)) → List JetState
  | [] => []
  | (dt, r) :: rest =>
    let s1 := integratorStep ops dt r s
    s1 :: runIntegrator ops s1 rest

/-- C6: the dynamics integrator is deterministic — two integrator
instances started from equal states produce identical sequences of
published aircraft states when replaying the same ordered
`(dt, reading-or-absent)` sequence, for every interpretation of the
transcendental functions: the step is a pure function of state and input
with no hidden randomness. -/
theorem integrator_deterministic (ops : TrigOps) (s1 s2 : JetState)
    (h : s1 = s2) (inputs : List (ℚ × Option (ℚ × ℚ))) :
    runIntegrator ops s1 inputs = runIntegrator ops s2 inputs := by
  subst h
  rfl

/-- C6 witness: two fresh instances replay a concrete two-tick input
sequence to identical published sequences. -/
theorem integrator_deterministic_witness :
    runIntegrator trivOps initJet [(1 / 60, some (600, 400)), (1 / 60, none)] =
      runIntegrator trivOps initJet [(1 / 60, some (600, 400)), (1 / 60, none)] :=
  integrator_deterministic trivOps initJet initJet rfl
    [(1 / 60, some (600, 400)), (1 / 60, none)]

/-- C7: the deadzone: a normalized axis value with magnitude strictly
below 0.1 is treated as exactly 0 when forming the target roll and
target pitch of this tick, so such an input contributes exactly 0 to the targets — the
step then moves roll and pitch by the pure decay `· * 0.9` alone. -/
theorem deadzone_zero_contribution (xv yv : ℚ) (ops : TrigOps) (dt : ℚ)
    (s : JetState) (hx : |normAxis xv| < 1 / 10) (hy : |normAxis yv| < 1 / 10) :
    targetRoll xv = 0 ∧ targetPitch yv = 0 ∧
    (integratorStep ops dt (some (xv, yv)) s).roll = s.roll * (9 / 10) ∧
    (integratorStep ops dt (some (xv, yv)) s).pitch = s.pitch * (9 / 10) := by
  have h1 : targetRoll xv = 0 := by
    unfold targetRoll applyDeadzone
    rw [if_pos hx]
    ring
  have h2 : targetPitch yv = 0 := by
    unfold targetPitch applyDeadzone
    rw [if_pos (by rwa [abs_neg])]
    ring
  refine ⟨h1, h2, ?_, ?_⟩
  · simp [integratorStep, h1]
  · simp [integratorStep, h2]

/-- C7 witness: raw axes (520, 500) normalize inside the deadzone, so the
concrete step leaves only the decay factor on roll and pitch. -/
theorem deadzone_zero_contribution_witness :
    targetRoll 520 = 0 ∧ targetPitch 500 = 0 ∧
    (integratorStep trivOps (1 / 60) (some (520, 500)) initJet).roll =
      initJet.roll * (9 / 10) ∧
    (integratorStep trivOps (1 / 60) (some (520, 500)) initJet).pitch =
      initJet.pitch * (9 / 10) :=
  deadzone_zero_contribution 520 500 trivOps (1 / 60) initJet
    (by unfold normAxis
        rw [abs_of_nonneg (by norm_num)]
        norm_num)
    (by unfold normAxis
        rw [abs_of_nonpos (by norm_num)]
        norm_num)

theorem qmod_eq (x m : ℚ) (hm : m ≠ 0) : qmod x m = m * Int.fract (x / m) := by
  unfold qmod Int.fract
  rw [mul_sub, mul_div_cancel₀ x hm]

theorem qmod_nonneg (x m : ℚ) (hm : 0 < m) : 0 ≤ qmod x m := by
  rw [qmod_eq x m (ne_of_gt hm)]
  exact mul_nonneg hm.le (Int.fract_nonneg _)

theorem qmod_lt (x m : ℚ) (hm : 0 < m) : qmod x m < m := by
  rw [qmod_eq x m (ne_of_gt hm)]
  calc m * Int.fract (x / m) < m * 1 :=
        mul_lt_mul_of_pos_left (Int.fract_lt_one _) hm
    _ = m := mul_one m

/-- C10: position-bounds invariant of the wrap-and-clamp step: after every
integrator step — for every prior state, reading and `dt`, and every
interpretation of the transcendental functions — the published position
satisfies `0 ≤ x < 1024` (horizontal axis wrapped modulo the window
width) and `50 ≤ y ≤ 768 - 50` (vertical axis clamped). -/
theorem position_bounds (ops : TrigOps) (dt : ℚ) (r : Option (ℚ × ℚ))
    (s : JetState) :
    0 ≤ (integratorStep ops dt r s).x ∧
    (integratorStep ops dt r s).x < 1024 ∧
    50 ≤ (integratorStep ops dt r s).y ∧
    (integratorStep ops dt r s).y ≤ 768 - 50 := by
  refine ⟨?_, ?_, ?_, ?_⟩
  · simp only [integratorStep]
    exact qmod_nonneg _ _ (by norm_num)
  · simp only [integratorStep]
    exact qmod_lt _ _ (by norm_num)
  · simp only [integratorStep]
    exact le_max_left _ _
  · simp only [integratorStep]
    exact max_le (by norm_num) (min_le_left _ _)

/-! ## claude.py main-loop tick and the "reset" boundary policy

claude.py lines 379–411: per tick at most one line is read; a decoded
reading moves the airplane, accumulates the travelled distance, and — when
the position leaves the bound — resets position and trail.  The
cumulative `distance_traveled` is NOT touched by that branch. -/

/-- The flight state of claude.py `main`. -/
structure FlightState where
  ax : ℚ
  ay : ℚ
  az : ℚ
  roll : ℚ
  pitch : ℚ
  velocity : ℚ
  distance : ℚ
  trail : List (ℚ × ℚ × ℚ)

/-- Initial flight state of claude.py `main`: origin, zero attitude,
zero cumulative distance, empty trail. -/
def initFlight : FlightState :=
  { ax := 0, ay := 0, az := 0, roll := 0, pitch := 0, velocity := 0,
    distance := 0, trail := [] }

/-- Append to the trail as `trail.append` on a `deque(maxlen=100)` does: append right, dropping the
oldest entries beyond 100. -/
def pushTrail (t : List (ℚ × ℚ × ℚ)) (pos : ℚ × ℚ × ℚ) : List (ℚ × ℚ × ℚ) :=
  let t1 := t ++ [pos]
  t1.drop (t1.length - 100)

/-- The movement part of one claude.py tick for a decoded normalized
reading `(xn, yn)`: integrate position (`move_speed = 0.12`, constant
forward `z` step `-0.03`), accumulate distance by the Euclidean step
length, set attitude from the raw normalized axes, then apply the "reset"
boundary policy of lines 406–411: if the new position crosses the bound,
zero the position and clear the trail, then append the (post-reset)
position. -/
def claudeMove (sq : ℚ → ℚ) (st : FlightState) (xn yn : ℚ) : FlightState :=
  let ax1 := st.ax + xn * (12 / 100)
  let ay1 := st.ay + yn * (12 / 100)
  let az1 := st.az - 3 / 100
  let dx := ax1 - st.ax
  let dy := ay1 - st.ay
  let dz := az1 - st.az
  let d := sq (dx * dx + dy * dy + dz * dz)
  let dist1 := st.distance + d
  let vel1 := d * 60
  if 10 < |ax1| ∨ 10 < |ay1| ∨ az1 < -15 then
    { ax := 0, ay := 0, az := 0, roll := xn, pitch := yn, velocity := vel1,
      distance := dist1, trail := pushTrail [] (0, 0, 0) }
  else
    { ax := ax1, ay := ay1, az := az1, roll := xn, pitch := yn,
      velocity := vel1, distance := dist1,
      trail := pushTrail st.trail (ax1, ay1, az1) }

/-- One tick of the serial branch of claude.py `main`: at most one line is
read; a blank or undecodable line leaves the state unchanged; a decoded
one drives `claudeMove`. -/
def claudeTick (sq : ℚ → ℚ) (st : FlightState) (line : Option (List Char)) :
    FlightState :=
  match line with
  | none => st
  | some raw =>
    let s := stripC raw
    if s.isEmpty then st
    else
      match parse_sensor_data s with
      | none => st
      | some q => claudeMove sq st q.1 q.2

/-- Model of `math.sqrt` at the argument the concrete boundary-crossing
tick below reaches: `9/6400` is the squared step length there, and
`3/80` is its exact square root (see `sqrtModel_exact`); the value
elsewhere is irrelevant to the runs below. -/
def sqrtModel (q : ℚ) : ℚ :=
  if q = 9 / 6400 then 3 / 80 else 0

/-- Sanity: `sqrtModel` returns the exact nonnegative square root at the
argument it is used on. -/
theorem sqrtModel_exact :
    sqrtModel (9 / 6400) = 3 / 80 ∧ ((3 : ℚ) / 80) ^ 2 = 9 / 6400 ∧
    (0 : ℚ) ≤ 3 / 80 := by
  refine ⟨?_, by norm_num, by norm_num⟩
  norm_num [sqrtModel]

/-- A state one step short of the bound, with accumulated distance 5. -/
def crossState : FlightState :=
  { ax := 10, ay := 0, az := 0, roll := 0, pitch := 0, velocity := 0,
    distance := 5, trail := [(10, 0, 0)] }

/-- The reading `"X:608,Y:512"` that pushes `crossState` over the bound:
it normalizes to `(3/16, 0)`. -/
def lineReset : List Char := "X:608,Y:512".data

/-- First comma field of `lineReset`. -/
def fieldX : List Char := "X:608".data

/-- Second comma field of `lineReset`. -/
def fieldY : List Char := "Y:512".data

theorem parse_lineReset : parse_sensor_data (stripC lineReset) = some (3 / 16, 0) := by
  have hstrip : stripC lineReset = lineReset := by decide
  have hsplit : splitComma lineReset = [fieldX, fieldY] := by decide
  have hxe : (fieldX.filter isDigitC).isEmpty = false := by decide
  have hye : (fieldY.filter isDigitC).isEmpty = false := by decide
  have hxds : natOfDigits (fieldX.filter isDigitC) = 608 := by decide
  have hyds : natOfDigits (fieldY.filter isDigitC) = 512 := by decide
  rw [hstrip]
  unfold parse_sensor_data
  rw [hsplit]
  simp only [hxe, hye, Bool.or_self, Bool.false_eq_true, if_false, hxds, hyds,
    Option.some.injEq, Prod.mk.injEq]
  constructor <;> push_cast <;> norm_num

theorem tick_lineReset :
    claudeTick sqrtModel crossState (some lineReset) =
      claudeMove sqrtModel crossState (3 / 16) 0 := by
  have hempty : (stripC lineReset).isEmpty = false := by decide
  unfold claudeTick
  simp only [hempty, Bool.false_eq_true, if_false, parse_lineReset]

/-- C4 counterexample: on the concrete boundary-crossing tick (state at
`x = 10` with accumulated distance 5, reading `"X:608,Y:512"`), the reset
branch fires — position returns to the origin and the trail history is
discarded down to the single post-reset point — but the cumulative
distance counter is NOT reset to its initial value: it becomes
`5 + 3/80 ≠ 0`.  This refutes the claim that position, trail and distance
are all three reset in that tick. -/
theorem boundary_reset_counterexample :
    (claudeTick sqrtModel crossState (some lineReset)).ax = 0 ∧
    (claudeTick sqrtModel crossState (some lineReset)).ay = 0 ∧
    (claudeTick sqrtModel crossState (some lineReset)).az = 0 ∧
    (claudeTick sqrtModel crossState (some lineReset)).trail = [(0, 0, 0)] ∧
    (claudeTick sqrtModel crossState (some lineReset)).distance = 5 + 3 / 80 ∧
    (claudeTick sqrtModel crossState (some lineReset)).distance ≠
      initFlight.distance := by
  rw [tick_lineReset]
  have hcond : 10 < |crossState.ax + 3 / 16 * (12 / 100)| ∨
      10 < |crossState.ay + 0 * (12 / 100)| ∨ crossState.az - 3 / 100 < -15 := by
    refine Or.inl ?_
    have h : crossState.ax + (3 : ℚ) / 16 * (12 / 100) = 4009 / 400 := by
      norm_num [crossState]
    rw [h, abs_of_nonneg (by norm_num)]
    norm_num
  have harg : (crossState.ax + 3 / 16 * (12 / 100) - crossState.ax) *
        (crossState.ax + 3 / 16 * (12 / 100) - crossState.ax) +
      (crossState.ay + 0 * (12 / 100) - crossState.ay) *
        (crossState.ay + 0 * (12 / 100) - crossState.ay) +
      (crossState.az - 3 / 100 - crossState.az) *
        (crossState.az - 3 / 100 - crossState.az) = (9 : ℚ) / 6400 := by
    norm_num [crossState]
  simp only [claudeMove]
  rw [if_pos hcond, harg]
  refine ⟨rfl, rfl, rfl, rfl, ?_, ?_⟩
  · show crossState.distance + sqrtModel (9 / 6400) = 5 + 3 / 80
    norm_num [crossState, sqrtModel]
  · show crossState.distance + sqrtModel (9 / 6400) ≠ initFlight.distance
    norm_num [crossState, sqrtModel, initFlight]

/-- C4 (amended): the "reset" boundary policy as implemented.  On every
tick whose movement crosses the configured bound, the published state has
position reset to the initial origin and the prior trail history
discarded (the trail then holds exactly the post-reset position), but the
cumulative distance counter is NOT reset: it keeps its accumulated value
and still gains the increment of this tick. -/
theorem boundary_reset_behavior (sq : ℚ → ℚ) (st : FlightState) (xn yn : ℚ)
    (hcross : 10 < |st.ax + xn * (12 / 100)| ∨ 10 < |st.ay + yn * (12 / 100)| ∨
      st.az - 3 / 100 < -15) :
    (claudeMove sq st xn yn).ax = 0 ∧ (claudeMove sq st xn yn).ay = 0 ∧
    (claudeMove sq st xn yn).az = 0 ∧
    (claudeMove sq st xn yn).trail = [(0, 0, 0)] ∧
    (claudeMove sq st xn yn).distance =
      st.distance +
        sq ((xn * (12 / 100)) ^ 2 + (yn * (12 / 100)) ^ 2 + (3 / 100) ^ 2) := by
  have harg : (st.ax + xn * (12 / 100) - st.ax) * (st.ax + xn * (12 / 100) - st.ax) +
      (st.ay + yn * (12 / 100) - st.ay) * (st.ay + yn * (12 / 100) - st.ay) +
      (st.az - 3 / 100 - st.az) * (st.az - 3 / 100 - st.az) =
      (xn * (12 / 100)) ^ 2 + (yn * (12 / 100)) ^ 2 + (3 / 100) ^ 2 := by
    ring
  simp only [claudeMove]
  rw [if_pos hcross, harg]
  exact ⟨rfl, rfl, rfl, rfl, rfl⟩

/-- C4 amended-claim witness: the concrete boundary-crossing tick, with
the hypotheses discharged at `crossState` and reading `(3/16, 0)`. -/
theorem boundary_reset_behavior_witness :
    (claudeMove sqrtModel crossState (3 / 16) 0).ax = 0 ∧
    (claudeMove sqrtModel crossState (3 / 16) 0).ay = 0 ∧
    (claudeMove sqrtModel crossState (3 / 16) 0).az = 0 ∧
    (claudeMove sqrtModel crossState (3 / 16) 0).trail = [(0, 0, 0)] ∧
    (claudeMove sqrtModel crossState (3 / 16) 0).distance =
      crossState.distance +
        sqrtModel ((3 / 16 * (12 / 100)) ^ 2 + (0 * (12 / 100)) ^ 2 + (3 / 100) ^ 2) :=
  boundary_reset_behavior sqrtModel crossState (3 / 16) 0
    (Or.inl (by
      have h : crossState.ax + (3 : ℚ) / 16 * (12 / 100) = 4009 / 400 := by
        norm_num [crossState]
      rw [h, abs_of_nonneg (by norm_num)]
      norm_num))

end Joystick
